import Mathlib

/-!
Shallow embedding of JUCE's `ComponentBuilder`
(`src/src/gui/components/layout/juce_ComponentBuilder.cpp`).

The builder keeps a live tree of `Component` objects synchronized with a
`ValueTree` state description.  Pure data is modelled directly; the
mutable component hierarchy is modelled as explicit lists of children
threaded through the reconciliation functions.  Object identity of
components is modelled by a numeric `objId` tag; newly created
components draw fresh tags from a counter.
-/

namespace JuceBuilder

/-- State node of the declarative tree (JUCE `ValueTree`): a type tag,
named properties and an ordered child list. -/
inductive ValueTree where
  | mk (vtype : String) (props : List (String × String)) (children : List ValueTree)

/-- Type tag of a state node (`ValueTree::getType`). -/
def ValueTree.vtype : ValueTree → String
  | .mk t _ _ => t

/-- Named properties of a state node. -/
def ValueTree.props : ValueTree → List (String × String)
  | .mk _ p _ => p

/-- Ordered children of a state node (`getChild` enumeration). -/
def ValueTree.children : ValueTree → List ValueTree
  | .mk _ _ c => c

/-- Node of a state tree addressed by a path of child indices from the
root; `none` when the path is invalid.  A node's parent is the node at
the path with the last index dropped (`ValueTree::getParent`). -/
def ValueTree.getNode : ValueTree → List Nat → Option ValueTree
  | t, [] => some t
  | t, i :: rest =>
    match t.children.get? i with
    | some c => c.getNode rest
    | none => none

/-- Helper `ComponentBuilderHelpers::getStateId`: reads the reserved
`id` property of a state node; a missing property reads as the empty
string (JUCE `var().toString()`). -/
def getStateId (state : ValueTree) : String :=
  (state.props.lookup "id").getD ""

/-- A registered type handler (`ComponentBuilder::TypeHandler`); its
`htype` is the value-tree type tag it claims (`TypeHandler::getType`). -/
structure TypeHandler where
  htype : String
deriving DecidableEq, Repr

/-- `ComponentBuilder::getHandlerForState`: linear scan of the
registered handlers, first one whose type tag equals the state node's
type wins. -/
def getHandlerForState (types : List TypeHandler) (s : ValueTree) : Option TypeHandler :=
  types.find? (fun t => t.htype == s.vtype)

/-- A live component (JUCE `Component`): an object-identity tag, its
component ID string (`getComponentID`), and its ordered child list,
index 0 being the backmost child and the last index the frontmost
(topmost) one. -/
inductive Component where
  | mk (objId : Nat) (componentID : String) (children : List Component)

/-- Object-identity tag of a component. -/
def Component.objId : Component → Nat
  | .mk o _ _ => o

/-- The component's ID string (`Component::getComponentID`). -/
def Component.componentID : Component → String
  | .mk _ i _ => i

/-- Ordered child components (`getChildComponent` enumeration,
back-to-front). -/
def Component.children : Component → List Component
  | .mk _ _ c => c

/-- `Component::setComponentID`. -/
def Component.setComponentID : Component → String → Component
  | .mk o _ c, i => .mk o i c

/-- `ComponentBuilderHelpers::findComponentWithID` (OwnedArray
overload): scans the pool from the LAST index down to 0 and removes and
returns the first component found whose ID equals `compId`, together
with the remaining pool; `none` when no component matches. -/
def findComponentWithIDInPool : List Component → String → Option (Component × List Component)
  | [], _ => none
  | c :: rest, compId =>
    match findComponentWithIDInPool rest compId with
    | some (f, rest2) => some (f, c :: rest2)
    | none => if c.componentID == compId then some (c, rest) else none

mutual

/-- `ComponentBuilderHelpers::findComponentWithID` (Component
overload): returns `c` itself when its ID matches, otherwise searches
the children recursively, iterating from the LAST child index (the
frontmost child) down to index 0 and returning the first hit. -/
def findComponentWithIDInTree (c : Component) (compId : String) : Option Component :=
  match c with
  | .mk oid cid children =>
    if cid == compId then some (.mk oid cid children)
    else findComponentWithIDRev children compId
termination_by sizeOf c

/-- The child loop of the Component-overload search: tries the later
indices (the tail of the list) first, then the head, mirroring the
`--i >= 0` loop of the source. -/
def findComponentWithIDRev (l : List Component) (compId : String) : Option Component :=
  match l with
  | [] => none
  | c :: rest =>
    match findComponentWithIDRev rest compId with
    | some r => some r
    | none => findComponentWithIDInTree c compId
termination_by sizeOf l

end

/-- Modelled from the spec: `TypeHandler::addNewComponentFromState` is
an external virtual supplied by each handler (the `Component` class and
the concrete handlers are not in this repository's sources).  Per the
contract it must return a non-null, fully constructed instance whose
parent pointer equals the supplied parent; the model returns a fresh
component (tagged with the supplied fresh object id) with no ID set
yet, appended to the supplied parent by the caller. -/
def addNewComponentFromState (_t : TypeHandler) (_state : ValueTree) (fresh : Nat) : Component :=
  .mk fresh "" []

/-- `ComponentBuilderHelpers::createNewComponent`: asks the handler for
a new component and then assigns its component ID from the state
node's `id` property. -/
def createNewComponent (t : TypeHandler) (state : ValueTree) (fresh : Nat) : Component :=
  (addNewComponentFromState t state fresh).setComponentID (getStateId state)

/-- Mutable state threaded through the child loop of
`ComponentBuilder::updateChildComponents`: the removable pool of
existing children (`existingComponents`), the parent's current child
array (`parent`'s children, which grows when a handler adds a new
child), the `componentsInOrder` list, the list of components created
during the pass, and the fresh-object-id counter. -/
structure RState where
  pool : List Component
  arr : List Component
  inOrder : List Component
  created : List Component
  fresh : Nat

/-- One iteration of the child loop of `updateChildComponents` for one
child state node: look the handler up; if none, skip the child
entirely; otherwise claim an existing component from the pool by ID, or
create a new one (which the handler parents to `parent`, i.e. appends
to the parent's child array), and append it to `componentsInOrder`. -/
def stepChild (types : List TypeHandler) (st : RState) (childState : ValueTree) : RState :=
  match getHandlerForState types childState with
  | none => st
  | some t =>
    match findComponentWithIDInPool st.pool (getStateId childState) with
    | some (c, rest) =>
      { st with pool := rest, inOrder := st.inOrder ++ [c] }
    | none =>
      let c := createNewComponent t childState st.fresh
      { st with arr := st.arr ++ [c], inOrder := st.inOrder ++ [c],
                created := st.created ++ [c], fresh := st.fresh + 1 }

/-- Removes the first component with the given object id from a child
array (a component being deleted or re-inserted removes itself from its
parent's child list). -/
def removeById : List Component → Nat → List Component
  | [], _ => []
  | c :: rest, oid => if c.objId == oid then rest else c :: removeById rest oid

/-- Inserts `c` directly before the first component whose object id is
`target` (i.e. directly behind it in z-order). -/
def insertBefore : List Component → Nat → Component → List Component
  | [], _, c => [c]
  | x :: xs, target, c =>
    if x.objId == target then c :: x :: xs else x :: insertBefore xs target c

/-- Modelled from the spec: `Component::toFront` (not in this
repository's sources) promotes a child to the topmost position, i.e.
moves it to the end of its parent's child array. -/
def toFront (arr : List Component) (c : Component) : List Component :=
  removeById arr c.objId ++ [c]

/-- Modelled from the spec: `Component::toBehind` (not in this
repository's sources) places a child immediately behind another
sibling, i.e. re-inserts it directly before that sibling in the
parent's child array. -/
def toBehind (arr : List Component) (c other : Component) : List Component :=
  insertBefore (removeById arr c.objId) other.objId c

/-- The descending z-order loop of `updateChildComponents`: having
already brought `prev` (initially the last of `componentsInOrder`) to
the front, walk the remaining components from the end of the order
towards its start, placing each immediately behind its successor. -/
def zorderGo (arr : List Component) (prev : Component) : List Component → List Component
  | [] => arr
  | c :: cs => zorderGo (toBehind arr c prev) c cs

/-- The z-order fix-up at the end of `updateChildComponents`: when the
order list is non-empty, bring its last component to the front and then
place each preceding component immediately behind its successor. -/
def zorderApply (arr : List Component) (ord : List Component) : List Component :=
  match ord.reverse with
  | [] => arr
  | top :: rest => zorderGo (toFront arr top) top rest

/-- Result of one `updateChildComponents` pass: the parent's final
child array, the `componentsInOrder` list, the components created
during the pass, the unclaimed components deleted when
`existingComponents` goes out of scope, the fresh-id counter after the
pass, and whether the debug assertion `jassert (type != nullptr)` would
have fired for some child. -/
structure ReconcileResult where
  children : List Component
  inOrder : List Component
  created : List Component
  disposed : List Component
  freshOut : Nat
  assertFailed : Bool

/-- `ComponentBuilder::updateChildComponents`, on the parent's child
array `cs` and the child state list of the parent state node: snapshot
the children into a pool, run the child loop, delete the unclaimed pool
remainder (each deletion removes that component from the parent), and
rebuild the z-order from the `componentsInOrder` list. -/
def updateChildComponents (types : List TypeHandler) (cs : List Component)
    (children : List ValueTree) (fresh : Nat) : ReconcileResult :=
  let st := children.foldl (stepChild types) ⟨cs, cs, [], [], fresh⟩
  let disposed := st.pool
  let remaining := st.arr.filter (fun c => ! disposed.any (fun d => d.objId == c.objId))
  { children := zorderApply remaining st.inOrder
    inOrder := st.inOrder
    created := st.created
    disposed := disposed
    freshOut := st.fresh
    assertFailed := children.any (fun s => (getHandlerForState types s).isNone) }

/-- Record of one invocation of a handler's
`updateComponentFromState` (an external virtual): which handler type
was invoked, on which component (by object id), for which state
identifier. -/
structure UpdateEvent where
  htype : String
  compObjId : Nat
  uid : String
deriving DecidableEq, Repr

/-- The `ComponentBuilder` itself: the state tree it observes, its
registered type handlers, and the lazily created managed root
component. -/
structure Builder where
  state : ValueTree
  types : List TypeHandler
  component : Option Component

/-- `ComponentBuilder::createComponent`: resolves a handler for the
root state and creates the root component from it (null when no
handler matches, after the debug assertion). -/
def Builder.createComponent (b : Builder) : Option Component :=
  match getHandlerForState b.types b.state with
  | some t => some (createNewComponent t b.state 0)
  | none => none

/-- `ComponentBuilder::getManagedComponent`: creates the root component
on first access and caches it. -/
def Builder.getManagedComponent (b : Builder) : Builder :=
  match b.component with
  | some _ => b
  | none => { b with component := b.createComponent }

/-- The recursive body of `ComponentBuilderHelpers::updateComponent`,
acting on the state node at `path` in the builder's state tree: when
the node has no matching handler or an empty id, the procedure is
re-applied to the node's parent (if any); otherwise the live component
with the node's id is searched for in the managed tree and, when found,
the handler's `updateComponentFromState` is invoked on it (recorded as
an `UpdateEvent`). -/
def updateComponentAux (types : List TypeHandler) (root : ValueTree)
    (topLevel : Component) (path : List Nat) : List UpdateEvent :=
  match root.getNode path with
  | none => []
  | some node =>
    match getHandlerForState types node with
    | none =>
      if h : path = [] then []
      else updateComponentAux types root topLevel path.dropLast
    | some t =>
      if (getStateId node).isEmpty then
        if h : path = [] then []
        else updateComponentAux types root topLevel path.dropLast
      else
        match findComponentWithIDInTree topLevel (getStateId node) with
        | some c => [⟨t.htype, c.objId, getStateId node⟩]
        | none => []
termination_by path.length
decreasing_by
  all_goals simp [List.length_dropLast]
  all_goals exact List.length_pos.mpr (by assumption)

/-- `ComponentBuilderHelpers::updateComponent`: first fetches (and so
lazily creates) the managed root component, then, when it exists, runs
the recursive update walk on the notified node. -/
def updateComponent (b : Builder) (path : List Nat) : Builder × List UpdateEvent :=
  let b1 := b.getManagedComponent
  match b1.component with
  | none => (b1, [])
  | some top => (b1, updateComponentAux b1.types b1.state top path)

/-- Listener callback `ComponentBuilder::valueTreePropertyChanged`. -/
def valueTreePropertyChanged (b : Builder) (path : List Nat) : Builder × List UpdateEvent :=
  updateComponent b path

/-- Listener callback `ComponentBuilder::valueTreeChildAdded`. -/
def valueTreeChildAdded (b : Builder) (path : List Nat) : Builder × List UpdateEvent :=
  updateComponent b path

/-- Listener callback `ComponentBuilder::valueTreeChildRemoved`. -/
def valueTreeChildRemoved (b : Builder) (path : List Nat) : Builder × List UpdateEvent :=
  updateComponent b path

/-- Listener callback `ComponentBuilder::valueTreeChildOrderChanged`. -/
def valueTreeChildOrderChanged (b : Builder) (path : List Nat) : Builder × List UpdateEvent :=
  updateComponent b path

/-- Listener callback `ComponentBuilder::valueTreeParentChanged`. -/
def valueTreeParentChanged (b : Builder) (path : List Nat) : Builder × List UpdateEvent :=
  updateComponent b path

/-- The five change-notification kinds a `ValueTree::Listener`
receives. -/
inductive NotificationKind where
  | propertyChanged
  | childAdded
  | childRemoved
  | childOrderChanged
  | parentChanged
deriving DecidableEq, Repr

/-- Dispatch of a change notification to the corresponding listener
callback of the builder. -/
def handleNotification : NotificationKind → Builder → List Nat → Builder × List UpdateEvent
  | .propertyChanged => valueTreePropertyChanged
  | .childAdded => valueTreeChildAdded
  | .childRemoved => valueTreeChildRemoved
  | .childOrderChanged => valueTreeChildOrderChanged
  | .parentChanged => valueTreeParentChanged

mutual

/-- Depth-first visit order written from the spec's words: the root
first, then the subtrees of its children recursively, the frontmost
(last-indexed) child's subtree first. -/
def dfsOrder (c : Component) : List Component :=
  match c with
  | .mk oid cid children => .mk oid cid children :: dfsRev children
termination_by sizeOf c

/-- Concatenation of the depth-first visit orders of a child list,
frontmost (last-indexed) child first. -/
def dfsRev (l : List Component) : List Component :=
  match l with
  | [] => []
  | c :: rest => dfsRev rest ++ dfsOrder c
termination_by sizeOf l

end

/-- The target-resolution walk written from the spec's words: the
nearest ancestor-or-self of the node at `path` that has both a
matching handler and a non-empty identifier, or `none` when the root is
passed without finding one. -/
def resolveAddressable (types : List TypeHandler) (root : ValueTree)
    (path : List Nat) : Option (TypeHandler × ValueTree) :=
  match root.getNode path with
  | none => none
  | some node =>
    match getHandlerForState types node with
    | none =>
      if h : path = [] then none
      else resolveAddressable types root path.dropLast
    | some t =>
      if (getStateId node).isEmpty then
        if h : path = [] then none
        else resolveAddressable types root path.dropLast
      else some (t, node)
termination_by path.length
decreasing_by
  all_goals simp [List.length_dropLast]
  all_goals exact List.length_pos.mpr (by assumption)

/-! Lemmas about the pool lookup. -/

theorem findPool_id {pool : List Component} {compId : String} {c : Component}
    {rest : List Component}
    (h : findComponentWithIDInPool pool compId = some (c, rest)) :
    c.componentID = compId := by
  induction pool generalizing rest with
  | nil => simp [findComponentWithIDInPool] at h
  | cons x xs ih =>
    simp only [findComponentWithIDInPool] at h
    cases hx : findComponentWithIDInPool xs compId with
    | some p =>
      rw [hx] at h
      obtain ⟨f, rest2⟩ := p
      simp only [Option.some.injEq, Prod.mk.injEq] at h
      rw [h.1] at hx
      exact ih hx
    | none =>
      rw [hx] at h
      by_cases hb : (x.componentID == compId) = true
      · simp only [hb, if_true, Option.some.injEq, Prod.mk.injEq] at h
        rw [← h.1]
        exact eq_of_beq hb
      · simp [hb] at h

theorem findPool_perm {pool : List Component} {compId : String} {c : Component}
    {rest : List Component}
    (h : findComponentWithIDInPool pool compId = some (c, rest)) :
    pool.Perm (c :: rest) := by
  induction pool generalizing rest with
  | nil => simp [findComponentWithIDInPool] at h
  | cons x xs ih =>
    simp only [findComponentWithIDInPool] at h
    cases hx : findComponentWithIDInPool xs compId with
    | some p =>
      rw [hx] at h
      obtain ⟨f, rest2⟩ := p
      simp only [Option.some.injEq, Prod.mk.injEq] at h
      obtain ⟨hf, hr⟩ := h
      rw [hf] at hx
      rw [← hr]
      exact ((ih hx).cons x).trans (List.Perm.swap c x rest2)
    | none =>
      rw [hx] at h
      by_cases hb : (x.componentID == compId) = true
      · simp only [hb, if_true, Option.some.injEq, Prod.mk.injEq] at h
        rw [← h.1, ← h.2]
      · simp [hb] at h

theorem findPool_none {pool : List Component} {compId : String}
    (h : ∀ x ∈ pool, x.componentID ≠ compId) :
    findComponentWithIDInPool pool compId = none := by
  induction pool with
  | nil => rfl
  | cons x xs ih =>
    have hx : findComponentWithIDInPool xs compId = none :=
      ih (fun y hy => h y (List.mem_cons_of_mem x hy))
    have hb : (x.componentID == compId) = false :=
      beq_eq_false_iff_ne.mpr (h x (List.mem_cons_self x xs))
    simp [findComponentWithIDInPool, hx, hb]

theorem findPool_last_match {l r : List Component} {compId : String} {c : Component}
    (hc : c.componentID = compId) (hr : ∀ x ∈ r, x.componentID ≠ compId) :
    findComponentWithIDInPool (l ++ c :: r) compId = some (c, l ++ r) := by
  induction l with
  | nil =>
    simp only [List.nil_append, findComponentWithIDInPool, findPool_none hr]
    simp [hc]
  | cons x xs ih =>
    simp [findComponentWithIDInPool, ih]

theorem findPool_mem_rest {pool rest : List Component} {compId : String}
    {c e : Component} (he : e ∈ pool) (hne : e.componentID ≠ compId)
    (h : findComponentWithIDInPool pool compId = some (c, rest)) :
    e ∈ rest := by
  induction pool generalizing rest with
  | nil => simp at he
  | cons x xs ih =>
    simp only [findComponentWithIDInPool] at h
    cases hx : findComponentWithIDInPool xs compId with
    | some p =>
      rw [hx] at h
      obtain ⟨f, rest2⟩ := p
      simp only [Option.some.injEq, Prod.mk.injEq] at h
      obtain ⟨hf, hr⟩ := h
      rw [hf] at hx
      rw [← hr]
      rcases List.mem_cons.mp he with he | he
      · exact he ▸ List.mem_cons_self x rest2
      · exact List.mem_cons_of_mem x (ih he hx)
    | none =>
      rw [hx] at h
      by_cases hb : (x.componentID == compId) = true
      · simp only [hb, if_true, Option.some.injEq, Prod.mk.injEq] at h
        obtain ⟨hf, hr⟩ := h
        rw [← hr]
        rcases List.mem_cons.mp he with he | he
        · exact absurd (he ▸ eq_of_beq hb) hne
        · exact he
      · simp [hb] at h

/-! Lemmas about the z-order rebuild. -/

theorem distinct_across {l1 l2 : List Component}
    (h : ((l1 ++ l2).map Component.objId).Nodup) :
    ∀ x ∈ l1, ∀ y ∈ l2, x.objId ≠ y.objId := by
  intro x hx y hy heq
  rw [List.map_append] at h
  have hdis := (List.nodup_append.mp h).2.2
  exact hdis (List.mem_map.mpr ⟨x, hx, rfl⟩) (heq ▸ List.mem_map.mpr ⟨y, hy, rfl⟩)

theorem removeById_append_not_mem {l1 l2 : List Component} {oid : Nat}
    (h : ∀ x ∈ l1, x.objId ≠ oid) :
    removeById (l1 ++ l2) oid = l1 ++ removeById l2 oid := by
  induction l1 with
  | nil => rfl
  | cons x xs ih =>
    have hx : (x.objId == oid) = false :=
      beq_eq_false_iff_ne.mpr (h x (List.mem_cons_self x xs))
    simp [removeById, hx, ih (fun y hy => h y (List.mem_cons_of_mem x hy))]

theorem removeById_cons_self {l : List Component} {c : Component} :
    removeById (c :: l) c.objId = l := by
  simp [removeById]

theorem insertBefore_append_not_mem {l1 l2 : List Component} {target : Nat}
    {c : Component} (h : ∀ x ∈ l1, x.objId ≠ target) :
    insertBefore (l1 ++ l2) target c = l1 ++ insertBefore l2 target c := by
  induction l1 with
  | nil => rfl
  | cons x xs ih =>
    have hx : (x.objId == target) = false :=
      beq_eq_false_iff_ne.mpr (h x (List.mem_cons_self x xs))
    simp [insertBefore, hx, ih (fun y hy => h y (List.mem_cons_of_mem x hy))]

theorem insertBefore_cons_self {l : List Component} {prev c : Component} :
    insertBefore (prev :: l) prev.objId c = c :: prev :: l := by
  simp [insertBefore]

theorem zorderGo_eq (rest : List Component) :
    ∀ (pre suf : List Component) (prev : Component),
    pre.Perm rest →
    ((pre ++ prev :: suf).map Component.objId).Nodup →
    zorderGo (pre ++ prev :: suf) prev rest = rest.reverse ++ prev :: suf := by
  induction rest with
  | nil =>
    intro pre suf prev hperm _
    rw [List.Perm.eq_nil hperm]
    rfl
  | cons c cs ih =>
    intro pre suf prev hperm hnd
    have hcpre : c ∈ pre := (hperm.mem_iff).mpr (List.mem_cons_self c cs)
    obtain ⟨p1, p2, hp⟩ := List.append_of_mem hcpre
    subst hp
    have harr : (p1 ++ c :: p2) ++ prev :: suf = p1 ++ c :: (p2 ++ prev :: suf) := by
      simp
    have hndR : ((p1 ++ c :: (p2 ++ prev :: suf)).map Component.objId).Nodup := by
      rw [← harr]; exact hnd
    have hp1 : ∀ x ∈ p1, x.objId ≠ c.objId := fun x hx =>
      distinct_across hndR x hx c (List.mem_cons_self _ _)
    have hstep : toBehind ((p1 ++ c :: p2) ++ prev :: suf) c prev
        = (p1 ++ p2) ++ c :: prev :: suf := by
      unfold toBehind
      rw [harr, removeById_append_not_mem hp1, removeById_cons_self]
      have hp12 : ∀ x ∈ p1 ++ p2, x.objId ≠ prev.objId := by
        intro x hx
        refine distinct_across hnd x ?_ prev (List.mem_cons_self _ _)
        rcases List.mem_append.mp hx with h | h
        · exact List.mem_append.mpr (.inl h)
        · exact List.mem_append.mpr (.inr (List.mem_cons_of_mem c h))
      rw [show p1 ++ (p2 ++ prev :: suf) = (p1 ++ p2) ++ prev :: suf by simp]
      rw [insertBefore_append_not_mem hp12, insertBefore_cons_self]
    have hperm2 : (p1 ++ p2).Perm cs := by
      have h1 : (p1 ++ c :: p2).Perm (c :: (p1 ++ p2)) := List.perm_middle
      exact (h1.symm.trans hperm).cons_inv
    have hpermL : ((p1 ++ p2) ++ c :: prev :: suf).Perm ((p1 ++ c :: p2) ++ prev :: suf) := by
      have h1 : ((p1 ++ p2) ++ c :: prev :: suf).Perm (c :: ((p1 ++ p2) ++ prev :: suf)) :=
        List.perm_middle
      have h2 : ((p1 ++ c :: p2) ++ prev :: suf).Perm ((c :: (p1 ++ p2)) ++ prev :: suf) :=
        (List.perm_middle).append_right _
      exact h1.trans (by simpa using h2.symm)
    have hnd3 : (((p1 ++ p2) ++ c :: prev :: suf).map Component.objId).Nodup :=
      ((hpermL.map Component.objId).nodup_iff).mpr hnd
    have hrec := ih (p1 ++ p2) (prev :: suf) c hperm2 hnd3
    calc zorderGo ((p1 ++ c :: p2) ++ prev :: suf) prev (c :: cs)
        = zorderGo (toBehind ((p1 ++ c :: p2) ++ prev :: suf) c prev) c cs := by
          rw [zorderGo]
      _ = zorderGo ((p1 ++ p2) ++ c :: prev :: suf) c cs := by rw [hstep]
      _ = cs.reverse ++ c :: prev :: suf := hrec
      _ = (c :: cs).reverse ++ prev :: suf := by simp

theorem zorderApply_eq {arr ord : List Component}
    (hperm : arr.Perm ord) (hnd : (arr.map Component.objId).Nodup) :
    zorderApply arr ord = ord := by
  unfold zorderApply
  split
  next hrev =>
    have : ord = [] := by simpa using congrArg List.reverse hrev
    subst this
    exact List.Perm.eq_nil hperm
  next top rest hrev =>
    have hord : ord = rest.reverse ++ [top] := by
      have := congrArg List.reverse hrev
      simpa using this
    have htop : top ∈ arr := by
      rw [hperm.mem_iff, hord]
      simp
    obtain ⟨a1, a2, ha⟩ := List.append_of_mem htop
    have ha1 : ∀ x ∈ a1, x.objId ≠ top.objId := by
      intro x hx
      refine @distinct_across a1 (top :: a2) ?_ x hx top
        (List.mem_cons_self _ _)
      rw [← ha]; exact hnd
    have hfront : toFront arr top = (a1 ++ a2) ++ [top] := by
      unfold toFront
      rw [ha, removeById_append_not_mem ha1, removeById_cons_self]
    rw [hfront]
    have hperm2 : (a1 ++ a2).Perm rest := by
      have h1 : (a1 ++ top :: a2).Perm (top :: (a1 ++ a2)) := List.perm_middle
      have h2 : arr.Perm (top :: rest) := by
        rw [hord] at hperm
        refine hperm.trans ?_
        simpa using ((List.reverse_perm rest).append_right [top]).trans
          (@List.perm_append_comm _ rest [top])
      rw [ha] at h2
      exact (h1.symm.trans h2).cons_inv
    have hpermL : ((a1 ++ a2) ++ [top]).Perm arr := by
      rw [ha]
      exact (List.perm_append_comm).trans
        (@List.perm_middle _ top a1 a2).symm
    have hnd3 : (((a1 ++ a2) ++ top :: []).map Component.objId).Nodup :=
      ((hpermL.map Component.objId).nodup_iff).mpr hnd
    have := zorderGo_eq rest (a1 ++ a2) [] top hperm2 hnd3
    rw [this, hord]

/-! Invariants of the child-reconciliation loop. -/

theorem createNewComponent_objId {t : TypeHandler} {s : ValueTree} {f : Nat} :
    (createNewComponent t s f).objId = f := rfl

theorem createNewComponent_componentID {t : TypeHandler} {s : ValueTree} {f : Nat} :
    (createNewComponent t s f).componentID = getStateId s := rfl

/-- Invariant maintained by every iteration of the child loop: the
parent's child array is the initial children followed by the components
created so far; the pool together with the in-order list is a
permutation of the array; object ids stay pairwise distinct and below
the fresh counter. -/
def LoopInv (cs0 : List Component) (st : RState) : Prop :=
  st.arr = cs0 ++ st.created ∧
  (st.pool ++ st.inOrder).Perm st.arr ∧
  (st.arr.map Component.objId).Nodup ∧
  (∀ c ∈ st.arr, c.objId < st.fresh)

theorem stepChild_inv {types : List TypeHandler} {cs0 : List Component}
    {st : RState} {s : ValueTree} (h : LoopInv cs0 st) :
    LoopInv cs0 (stepChild types st s) := by
  obtain ⟨harr, hperm, hnd, hlt⟩ := h
  unfold stepChild
  cases getHandlerForState types s with
  | none => exact ⟨harr, hperm, hnd, hlt⟩
  | some t =>
    cases hf : findComponentWithIDInPool st.pool (getStateId s) with
    | some p =>
      obtain ⟨c, rest⟩ := p
      refine ⟨harr, ?_, hnd, hlt⟩
      have hp : st.pool.Perm (c :: rest) := findPool_perm hf
      have h1 : (rest ++ (st.inOrder ++ [c])).Perm ((c :: rest) ++ st.inOrder) := by
        have h2 : (st.inOrder ++ [c]).Perm ([c] ++ st.inOrder) := List.perm_append_comm
        have h3 : (rest ++ (st.inOrder ++ [c])).Perm (rest ++ ([c] ++ st.inOrder)) :=
          h2.append_left rest
        refine h3.trans ?_
        have h4 : rest ++ ([c] ++ st.inOrder) = rest ++ c :: st.inOrder := rfl
        rw [h4]
        exact (@List.perm_middle _ c rest st.inOrder).trans
          (List.Perm.refl _)
      refine h1.trans ?_
      exact ((hp.symm).append_right st.inOrder).trans hperm
    | none =>
      have hcid : (createNewComponent t s st.fresh).objId = st.fresh := rfl
      refine ⟨?_, ?_, ?_, ?_⟩
      · show st.arr ++ [createNewComponent t s st.fresh]
            = cs0 ++ (st.created ++ [createNewComponent t s st.fresh])
        rw [harr, List.append_assoc]
      · show (st.pool ++ (st.inOrder ++ [createNewComponent t s st.fresh])).Perm
            (st.arr ++ [createNewComponent t s st.fresh])
        rw [← List.append_assoc]
        exact hperm.append_right _
      · show (((st.arr ++ [createNewComponent t s st.fresh]).map Component.objId)).Nodup
        rw [List.map_append, List.nodup_append]
        refine ⟨hnd, by simp, ?_⟩
        intro a ha hb
        obtain ⟨x, hx, hxa⟩ := List.mem_map.mp ha
        have hx2 := hlt x hx
        have ha2 : a = st.fresh := by simpa [hcid] using hb
        omega
      · show ∀ x ∈ st.arr ++ [createNewComponent t s st.fresh], x.objId < st.fresh + 1
        intro x hx
        rcases List.mem_append.mp hx with hx | hx
        · exact Nat.lt_succ_of_lt (hlt x hx)
        · simp only [List.mem_singleton] at hx
          rw [hx, hcid]
          exact Nat.lt_succ_self _

theorem foldl_inv {types : List TypeHandler} {cs0 : List Component} :
    ∀ (children : List ValueTree) (st : RState), LoopInv cs0 st →
    LoopInv cs0 (children.foldl (stepChild types) st) := by
  intro children
  induction children with
  | nil => intro st h; exact h
  | cons s ss ih =>
    intro st h
    exact ih (stepChild types st s) (stepChild_inv h)

theorem foldl_inOrder_ids {types : List TypeHandler} :
    ∀ (children : List ValueTree) (st : RState),
    (∀ s ∈ children, (getHandlerForState types s).isSome = true) →
    ((children.foldl (stepChild types) st).inOrder).map Component.componentID
      = st.inOrder.map Component.componentID ++ children.map getStateId := by
  intro children
  induction children with
  | nil => intro st _; simp
  | cons s ss ih =>
    intro st hh
    have hs : (getHandlerForState types s).isSome = true :=
      hh s (List.mem_cons_self s ss)
    obtain ⟨t, ht⟩ := Option.isSome_iff_exists.mp hs
    have hstep : ((stepChild types st s).inOrder).map Component.componentID
        = st.inOrder.map Component.componentID ++ [getStateId s] := by
      unfold stepChild
      rw [ht]
      cases hf : findComponentWithIDInPool st.pool (getStateId s) with
      | some p =>
        obtain ⟨c, rest⟩ := p
        simp [findPool_id hf]
      | none =>
        simp [createNewComponent_componentID]
    have := ih (stepChild types st s)
      (fun x hx => hh x (List.mem_cons_of_mem s hx))
    simp only [List.foldl_cons]
    rw [this, hstep]
    simp

theorem filter_claimed_perm {A P B : List Component}
    (hperm : A.Perm (P ++ B)) (hnd : (A.map Component.objId).Nodup) :
    (A.filter (fun c => ! P.any (fun d => d.objId == c.objId))).Perm B := by
  have h1 : (A.filter (fun c => ! P.any (fun d => d.objId == c.objId))).Perm
      ((P ++ B).filter (fun c => ! P.any (fun d => d.objId == c.objId))) :=
    hperm.filter _
  rw [List.filter_append] at h1
  have hndPB : ((P ++ B).map Component.objId).Nodup :=
    ((hperm.map Component.objId).nodup_iff).mp hnd
  have hP : P.filter (fun c => ! P.any (fun d => d.objId == c.objId)) = [] := by
    refine List.filter_eq_nil_iff.mpr ?_
    intro p hp
    simp only [Bool.not_eq_true', Bool.not_eq_false]
    exact List.any_eq_true.mpr ⟨p, hp, by simp⟩
  have hB : B.filter (fun c => ! P.any (fun d => d.objId == c.objId)) = B := by
    refine List.filter_eq_self.mpr ?_
    intro b hb
    simp only [Bool.not_eq_eq_eq_not, Bool.not_true, List.any_eq_false]
    intro d hd hbeq
    exact (distinct_across hndPB d hd b hb) (eq_of_beq hbeq)
  rw [hP, hB] at h1
  simpa using h1

theorem reconcile_children_eq_inOrder {cs0 : List Component} {st : RState}
    (h : LoopInv cs0 st) :
    zorderApply (st.arr.filter (fun c => ! st.pool.any (fun d => d.objId == c.objId)))
      st.inOrder = st.inOrder := by
  obtain ⟨_, hperm, hnd, _⟩ := h
  have hfilter := filter_claimed_perm (A := st.arr) (P := st.pool) (B := st.inOrder)
    hperm.symm hnd
  have hndF := List.Nodup.sublist
    ((List.filter_sublist (p := fun c => ! st.pool.any (fun d => d.objId == c.objId))
      st.arr).map Component.objId) hnd
  exact zorderApply_eq hfilter hndF

/-- The matched second-pass run of the child loop: when the pool's
component IDs are exactly the child state ids, in order and without
duplicates, every child claims its component from the pool and nothing
is created. -/
theorem foldl_matched {types : List TypeHandler} :
    ∀ (children : List ValueTree) (es : List Component) (st : RState),
    st.pool = es →
    es.map Component.componentID = children.map getStateId →
    (∀ s ∈ children, (getHandlerForState types s).isSome = true) →
    (es.map Component.componentID).Nodup →
    children.foldl (stepChild types) st
      = { st with pool := [], inOrder := st.inOrder ++ es } := by
  intro children
  induction children with
  | nil =>
    intro es st hpool hmap _ _
    have hes : es = [] := by
      cases es with
      | nil => rfl
      | cons e es2 => simp at hmap
    subst hes
    obtain ⟨p, a, io, cr, f⟩ := st
    simp only [RState.pool] at hpool
    subst hpool
    simp
  | cons s ss ih =>
    intro es st hpool hmap hh hnd
    cases es with
    | nil => simp at hmap
    | cons e es2 =>
      simp only [List.map_cons, List.cons.injEq] at hmap
      obtain ⟨he, hmap2⟩ := hmap
      simp only [List.map_cons, List.nodup_cons] at hnd
      obtain ⟨hnotin, hnd2⟩ := hnd
      have hno : ∀ x ∈ es2, x.componentID ≠ getStateId s := by
        intro x hx heq
        exact hnotin (he ▸ heq ▸ List.mem_map.mpr ⟨x, hx, rfl⟩)
      have hfind : findComponentWithIDInPool (e :: es2) (getStateId s)
          = some (e, es2) := by
        have := @findPool_last_match [] es2 (getStateId s) e he hno
        simpa using this
      obtain ⟨t, ht⟩ := Option.isSome_iff_exists.mp (hh s (List.mem_cons_self s ss))
      have hstep : stepChild types st s
          = { st with pool := es2, inOrder := st.inOrder ++ [e] } := by
        unfold stepChild
        rw [ht, hpool, hfind]
      rw [List.foldl_cons, hstep]
      have hrec := ih es2 { st with pool := es2, inOrder := st.inOrder ++ [e] }
        rfl hmap2 (fun x hx => hh x (List.mem_cons_of_mem s hx)) hnd2
      rw [hrec]
      obtain ⟨p, a, io, cr, f⟩ := st
      simp

/-- C1: for every parent component (given by its child array `cs`) and
parent state node whose child state nodes `children` all have
registered handlers, after `updateChildComponents` the parent's child
array equals the `componentsInOrder` list built in state-node order
(so the component for the last child state node is the last — topmost —
child, each preceding component directly behind its successor), and the
component IDs along that order are exactly the child state node ids in
order.  Object-identity hypotheses: the existing children are distinct
objects and the fresh-id counter is above all of them. -/
theorem claim1_sibling_order (types : List TypeHandler) (cs : List Component)
    (children : List ValueTree) (fresh : Nat)
    (hh : ∀ s ∈ children, (getHandlerForState types s).isSome = true)
    (hnd : (cs.map Component.objId).Nodup)
    (hlt : ∀ c ∈ cs, c.objId < fresh) :
    (updateChildComponents types cs children fresh).children
      = (updateChildComponents types cs children fresh).inOrder ∧
    ((updateChildComponents types cs children fresh).inOrder).map Component.componentID
      = children.map getStateId := by
  have hinv := @foldl_inv types cs children ⟨cs, cs, [], [], fresh⟩
    ⟨by simp, by simp, hnd, hlt⟩
  constructor
  · exact reconcile_children_eq_inOrder hinv
  · have hids := @foldl_inOrder_ids types children ⟨cs, cs, [], [], fresh⟩ hh
    simpa using hids

/-- Closed witness for C1 at a concrete input: two state children of a
registered kind, one reusing an existing child, one new. -/
theorem claim1_sibling_order_witness :
    (updateChildComponents [⟨"button"⟩]
        [.mk 0 "a" []]
        [.mk "button" [("id", "b")] [], .mk "button" [("id", "a")] []] 5).children
      = (updateChildComponents [⟨"button"⟩]
        [.mk 0 "a" []]
        [.mk "button" [("id", "b")] [], .mk "button" [("id", "a")] []] 5).inOrder ∧
    ((updateChildComponents [⟨"button"⟩]
        [.mk 0 "a" []]
        [.mk "button" [("id", "b")] [], .mk "button" [("id", "a")] []] 5).inOrder).map
        Component.componentID
      = [.mk "button" [("id", "b")] [], .mk "button" [("id", "a")] []].map getStateId :=
  claim1_sibling_order [⟨"button"⟩] [.mk 0 "a" []]
    [.mk "button" [("id", "b")] [], .mk "button" [("id", "a")] []] 5
    (by intro s hs; fin_cases hs <;> rfl)
    (by simp)
    (by intro c hc; fin_cases hc <;> simp [Component.objId])

/-- C2: when every child state node has a registered handler, a
non-empty identifier that is unique among its siblings, and the
identifiers already equal the component IDs of the parent's current
children in the same order, a further `updateChildComponents` run
creates no component, disposes no component, and leaves the parent's
child array exactly as it was — every child state node claims the same
existing component object from the pool. -/
theorem claim2_second_pass_noop (types : List TypeHandler) (cs : List Component)
    (children : List ValueTree) (fresh : Nat)
    (hh : ∀ s ∈ children, (getHandlerForState types s).isSome = true)
    (hne : ∀ s ∈ children, (getStateId s).isEmpty = false)
    (hnds : (children.map getStateId).Nodup)
    (hmatch : cs.map Component.componentID = children.map getStateId)
    (hnd : (cs.map Component.objId).Nodup) :
    (updateChildComponents types cs children fresh).children = cs ∧
    (updateChildComponents types cs children fresh).created = [] ∧
    (updateChildComponents types cs children fresh).disposed = [] := by
  have hndc : (cs.map Component.componentID).Nodup := by
    rw [hmatch]; exact hnds
  have hfold := foldl_matched children cs ⟨cs, cs, [], [], fresh⟩ rfl hmatch hh hndc
  have hchildren : (updateChildComponents types cs children fresh).children
      = zorderApply
        (((children.foldl (stepChild types) ⟨cs, cs, [], [], fresh⟩).arr).filter
          (fun c => ! ((children.foldl (stepChild types)
            ⟨cs, cs, [], [], fresh⟩).pool).any (fun d => d.objId == c.objId)))
        ((children.foldl (stepChild types) ⟨cs, cs, [], [], fresh⟩).inOrder) := rfl
  refine ⟨?_, ?_, ?_⟩
  · rw [hchildren, hfold]
    show zorderApply (cs.filter (fun c => ! (false : Bool))) ([] ++ cs) = cs
    simp only [Bool.not_false, List.filter_true, List.nil_append]
    exact zorderApply_eq (List.Perm.refl cs) hnd
  · show (children.foldl (stepChild types) ⟨cs, cs, [], [], fresh⟩).created = []
    rw [hfold]
  · show (children.foldl (stepChild types) ⟨cs, cs, [], [], fresh⟩).pool = []
    rw [hfold]

/-- Closed witness for C2 at a concrete input: two existing children
whose IDs match the two child state nodes in order. -/
theorem claim2_second_pass_noop_witness :
    (updateChildComponents [⟨"button"⟩]
        [.mk 0 "a" [], .mk 1 "b" []]
        [.mk "button" [("id", "a")] [], .mk "button" [("id", "b")] []] 5).children
      = [.mk 0 "a" [], .mk 1 "b" []] ∧
    (updateChildComponents [⟨"button"⟩]
        [.mk 0 "a" [], .mk 1 "b" []]
        [.mk "button" [("id", "a")] [], .mk "button" [("id", "b")] []] 5).created = [] ∧
    (updateChildComponents [⟨"button"⟩]
        [.mk 0 "a" [], .mk 1 "b" []]
        [.mk "button" [("id", "a")] [], .mk "button" [("id", "b")] []] 5).disposed = [] :=
  claim2_second_pass_noop [⟨"button"⟩] [.mk 0 "a" [], .mk 1 "b" []]
    [.mk "button" [("id", "a")] [], .mk "button" [("id", "b")] []] 5
    (by intro s hs; fin_cases hs <;> rfl)
    (by intro s hs; fin_cases hs <;> rfl)
    (by simp [getStateId, ValueTree.props])
    (by simp [getStateId, ValueTree.props, Component.componentID])
    (by simp [Component.objId])

/-- C3 counterexample: with two pool components of the same ID "x", at
indices 0 and 1, the pool lookup claims the component at index 1 — the
LATEST-indexed match, not the earliest-indexed one as claimed; the
index-0 component is the one left unclaimed. -/
theorem claim3_counterexample :
    findComponentWithIDInPool [Component.mk 0 "x" [], Component.mk 1 "x" []] "x"
      = some (Component.mk 1 "x" [], [Component.mk 0 "x" []]) ∧
    (Component.mk 1 "x" []).objId ≠ (Component.mk 0 "x" []).objId :=
  ⟨rfl, by decide⟩

/-- C3 amended: when several sibling components in the pool share the
looked-up ID, the pool lookup claims the LAST match (the
highest-indexed component of the pool); all the other components —
including every earlier duplicate — remain unclaimed in the pool. -/
theorem claim3_last_match_wins {l r : List Component} {compId : String}
    {c : Component} (hc : c.componentID = compId)
    (hr : ∀ x ∈ r, x.componentID ≠ compId) :
    findComponentWithIDInPool (l ++ c :: r) compId = some (c, l ++ r) :=
  findPool_last_match hc hr

/-- Closed witness for the amended C3: duplicate IDs at indices 0 and 1,
a non-matching component at index 2; index 1 is claimed. -/
theorem claim3_last_match_wins_witness :
    findComponentWithIDInPool
        [Component.mk 0 "x" [], Component.mk 1 "x" [], Component.mk 2 "y" []] "x"
      = some (Component.mk 1 "x" [], [Component.mk 0 "x" [], Component.mk 2 "y" []]) :=
  claim3_last_match_wins (l := [Component.mk 0 "x" []])
    (c := Component.mk 1 "x" []) (r := [Component.mk 2 "y" []])
    rfl
    (by intro x hx; fin_cases hx; decide)

/-- Helper for the depth-first-search refinement: when the claim holds
for every element of a child list, the backwards child loop of the
search equals the first match over the concatenated visit orders. -/
theorem findRev_eq {compId : String} :
    ∀ (l : List Component),
    (∀ x ∈ l, findComponentWithIDInTree x compId
      = (dfsOrder x).find? (fun y => y.componentID == compId)) →
    findComponentWithIDRev l compId
      = (dfsRev l).find? (fun y => y.componentID == compId) := by
  intro l
  induction l with
  | nil => intro _; simp [findComponentWithIDRev, dfsRev]
  | cons c rest ih =>
    intro hall
    rw [findComponentWithIDRev, dfsRev]
    rw [List.find?_append]
    rw [ih (fun x hx => hall x (List.mem_cons_of_mem c hx))]
    cases hf : (dfsRev rest).find? (fun y => y.componentID == compId) with
    | some r => rfl
    | none =>
      show findComponentWithIDInTree c compId
        = Option.or none ((dfsOrder c).find? (fun y => y.componentID == compId))
      rw [hall c (List.mem_cons_self c rest)]
      rfl

theorem findTree_eq_aux {compId : String} :
    ∀ (n : Nat) (c : Component), sizeOf c ≤ n →
    findComponentWithIDInTree c compId
      = (dfsOrder c).find? (fun y => y.componentID == compId) := by
  intro n
  induction n with
  | zero =>
    intro c hc
    obtain ⟨oid, cid, children⟩ := c
    simp at hc
  | succ n ih =>
    intro c hc
    obtain ⟨oid, cid, children⟩ := c
    rw [findComponentWithIDInTree, dfsOrder]
    by_cases hb : (cid == compId) = true
    · rw [if_pos hb]
      rw [List.find?_cons_of_pos _ (by simpa [Component.componentID] using hb)]
    · rw [if_neg hb]
      rw [List.find?_cons_of_neg _ (by simpa [Component.componentID] using hb)]
      apply findRev_eq
      intro x hx
      apply ih
      have h1 : sizeOf x < sizeOf children := List.sizeOf_lt_of_mem hx
      have h2 : sizeOf (Component.mk oid cid children) = 1 + sizeOf oid + sizeOf cid
          + sizeOf children := by simp
      omega

/-- C4: the live-component search from the root is exactly the first
match over the depth-first visit order that takes the root first and
then the children's subtrees recursively, frontmost (topmost,
last-indexed) child first. -/
theorem claim4_dfs_order (c : Component) (compId : String) :
    findComponentWithIDInTree c compId
      = (dfsOrder c).find? (fun y => y.componentID == compId) :=
  findTree_eq_aux (sizeOf c) c (Nat.le_refl _)

/-- The result the spec ascribes to the update walk: nothing when no
addressable ancestor-or-self exists; otherwise the handler update on
the live component with the resolved node's id, when that component
exists. -/
def resolvedAction (types : List TypeHandler) (root : ValueTree) (top : Component)
    (path : List Nat) : List UpdateEvent :=
  match resolveAddressable types root path with
  | none => []
  | some (t, node) =>
    match findComponentWithIDInTree top (getStateId node) with
    | some c => [⟨t.htype, c.objId, getStateId node⟩]
    | none => []

theorem updateComponentAux_eq_resolve {types : List TypeHandler} {root : ValueTree}
    {top : Component} :
    ∀ (n : Nat) (path : List Nat), path.length ≤ n →
    updateComponentAux types root top path = resolvedAction types root top path := by
  intro n
  induction n with
  | zero =>
    intro path hp
    have hp0 : path = [] := List.length_eq_zero.mp (Nat.le_zero.mp hp)
    subst hp0
    rw [updateComponentAux, resolvedAction, resolveAddressable]
    simp only [ValueTree.getNode]
    cases hhand : getHandlerForState types root with
    | none => simp [hhand]
    | some t =>
      simp only [hhand]
      by_cases hemp : (getStateId root).isEmpty = true
      · simp [hemp]
      · simp [hemp]
  | succ n ih =>
    intro path hp
    rw [updateComponentAux, resolvedAction, resolveAddressable]
    cases hnode : root.getNode path with
    | none => simp
    | some node =>
      simp only []
      cases hhand : getHandlerForState types node with
      | none =>
        simp only []
        by_cases hp0 : path = []
        · simp [hp0]
        · simp only [hp0, dite_false, dif_neg]
          have hlen : path.dropLast.length ≤ n := by
            have h1 : path.dropLast.length = path.length - 1 := by
              simp [List.length_dropLast]
            omega
          have := ih path.dropLast hlen
          rw [resolvedAction] at this
          exact this
      | some t =>
        simp only []
        by_cases hemp : (getStateId node).isEmpty = true
        · simp only [hemp, if_true, if_pos]
          by_cases hp0 : path = []
          · simp [hp0]
          · simp only [hp0, dite_false, dif_neg]
            have hlen : path.dropLast.length ≤ n := by
              have h1 : path.dropLast.length = path.length - 1 := by
                simp [List.length_dropLast]
              omega
            have := ih path.dropLast hlen
            rw [resolvedAction] at this
            exact this
        · simp [hemp]

theorem updateComponent_fst (b : Builder) (path : List Nat) :
    (updateComponent b path).1 = b.getManagedComponent := by
  unfold updateComponent
  cases h : (b.getManagedComponent).component <;> simp [h]

theorem updateComponent_snd_of_some {b : Builder} {top : Component}
    (hcomp : b.component = some top) (path : List Nat) :
    updateComponent b path = (b, updateComponentAux b.types b.state top path) := by
  have hman : b.getManagedComponent = b := by
    unfold Builder.getManagedComponent
    rw [hcomp]
  unfold updateComponent
  rw [hman]
  show (match b.component with
    | none => (b, [])
    | some top2 => (b, updateComponentAux b.types b.state top2 path))
    = (b, updateComponentAux b.types b.state top path)
  rw [hcomp]

/-- C7: for every change notification on the node at `path`, the update
walk climbs from the node towards the root until a node with both a
matching handler and a non-empty identifier is found (`none` when the
root is passed), and when such a node is found and a live component
with its identifier exists in the managed tree, exactly that node's
handler update is invoked on exactly that component
(`resolvedAction` spells this resolution out from the spec's words). -/
theorem claim7_walk_up (b : Builder) (top : Component) (path : List Nat)
    (hcomp : b.component = some top) :
    (updateComponent b path).2 = resolvedAction b.types b.state top path := by
  rw [updateComponent_snd_of_some hcomp path]
  exact updateComponentAux_eq_resolve path.length path (Nat.le_refl _)

/-- Closed witness for C7: a notification on a child state node with
neither handler nor id resolves to its parent and updates the root
component. -/
theorem claim7_walk_up_witness :
    (updateComponent
        ⟨.mk "panel" [("id", "root")] [.mk "decor" [] []], [⟨"panel"⟩],
          some (.mk 0 "root" [])⟩ [0]).2
      = resolvedAction [⟨"panel"⟩] (.mk "panel" [("id", "root")] [.mk "decor" [] []])
          (.mk 0 "root" []) [0] :=
  claim7_walk_up
    ⟨.mk "panel" [("id", "root")] [.mk "decor" [] []], [⟨"panel"⟩],
      some (.mk 0 "root" [])⟩
    (.mk 0 "root" []) [0] rfl

/-- C8: a notification that resolves to an addressable node whose
identifier has no live component in the managed tree is a silent
no-op: the builder is unchanged and no handler update is invoked. -/
theorem claim8_stale_silent_noop (b : Builder) (top : Component) (path : List Nat)
    (t : TypeHandler) (node : ValueTree)
    (hcomp : b.component = some top)
    (hres : resolveAddressable b.types b.state path = some (t, node))
    (hfind : findComponentWithIDInTree top (getStateId node) = none) :
    updateComponent b path = (b, []) := by
  rw [updateComponent_snd_of_some hcomp path]
  have h := @updateComponentAux_eq_resolve b.types b.state top
    path.length path (Nat.le_refl _)
  rw [h]
  simp [resolvedAction, hres, hfind]

/-- Closed witness for C8: the state addresses id "root" but the only
live component has id "other"; the notification does nothing. -/
theorem claim8_stale_silent_noop_witness :
    updateComponent
        ⟨.mk "panel" [("id", "root")] [], [⟨"panel"⟩], some (.mk 0 "other" [])⟩ []
      = (⟨.mk "panel" [("id", "root")] [], [⟨"panel"⟩], some (.mk 0 "other" [])⟩, []) :=
  claim8_stale_silent_noop
    ⟨.mk "panel" [("id", "root")] [], [⟨"panel"⟩], some (.mk 0 "other" [])⟩
    (.mk 0 "other" []) [] ⟨"panel"⟩ (.mk "panel" [("id", "root")] [])
    rfl
    (by rw [resolveAddressable]; rfl)
    (by simp [findComponentWithIDInTree, findComponentWithIDRev,
      getStateId, ValueTree.props, Component.componentID])

/-- C9: delivering any of the five notification kinds to a builder
whose managed root has not yet been created constructs the root as a
side effect (via the `getManagedComponent` call at the top of
`updateComponent`), even on paths for which the notification itself is
a no-op. -/
theorem claim9_lazy_root_creation (b : Builder)
    (hnone : b.component = none)
    (hhand : (getHandlerForState b.types b.state).isSome = true)
    (k : NotificationKind) (path : List Nat) :
    ((handleNotification k b path).1).component = b.createComponent ∧
    (b.createComponent).isSome = true := by
  obtain ⟨t, ht⟩ := Option.isSome_iff_exists.mp hhand
  have hcc : b.createComponent = some (createNewComponent t b.state 0) := by
    unfold Builder.createComponent
    rw [ht]
  have hman : b.getManagedComponent = { b with component := b.createComponent } := by
    unfold Builder.getManagedComponent
    rw [hnone]
  have hupd : (updateComponent b path).1.component = b.createComponent := by
    rw [updateComponent_fst, hman]
  constructor
  · cases k <;> exact hupd
  · rw [hcc]; rfl

/-- Closed witness for C9: a garbage-path order-changed notification on
a builder with no root yet still constructs the root. -/
theorem claim9_lazy_root_creation_witness :
    ((handleNotification .childOrderChanged
        ⟨.mk "panel" [("id", "root")] [], [⟨"panel"⟩], none⟩ [3]).1).component
      = (Builder.createComponent ⟨.mk "panel" [("id", "root")] [], [⟨"panel"⟩], none⟩) ∧
    (Builder.createComponent
        ⟨.mk "panel" [("id", "root")] [], [⟨"panel"⟩], none⟩).isSome = true :=
  claim9_lazy_root_creation
    ⟨.mk "panel" [("id", "root")] [], [⟨"panel"⟩], none⟩ rfl rfl
    .childOrderChanged [3]

/-- C5 counterexample: the claim predicts that a child-structural
notification on a resolved node runs a procedure that differs from the
property-change procedure by performing child-list reconciliation; in
the code all five listener callbacks invoke the very same
`updateComponent` with the very same arguments, so at this concrete
input — a structural change on a fully resolved and live root node —
the two procedures' results are identical. -/
theorem claim5_counterexample :
    valueTreeChildAdded
        ⟨.mk "panel" [("id", "root")] [.mk "button" [("id", "a")] []],
          [⟨"panel"⟩, ⟨"button"⟩], some (.mk 0 "root" [.mk 1 "a" []])⟩ []
      = valueTreePropertyChanged
        ⟨.mk "panel" [("id", "root")] [.mk "button" [("id", "a")] []],
          [⟨"panel"⟩, ⟨"button"⟩], some (.mk 0 "root" [.mk 1 "a" []])⟩ [] := rfl

/-- C5 amended: all five notification kinds dispatch to one and the
same procedure; the builder itself makes no distinction between
structural and property notifications (child reconciliation is left to
whatever the resolved handler's update callback chooses to do). -/
theorem claim5_uniform_dispatch (k k2 : NotificationKind) (b : Builder)
    (path : List Nat) :
    handleNotification k b path = handleNotification k2 b path := by
  cases k <;> cases k2 <;> rfl

theorem stepChild_skip {types : List TypeHandler} {st : RState} {s : ValueTree}
    (h : getHandlerForState types s = none) :
    stepChild types st s = st := by
  unfold stepChild
  rw [h]

/-- Pool components whose ID is never looked up stay in the pool to the
end of the child loop. -/
theorem foldl_pool_retained {types : List TypeHandler} :
    ∀ (children : List ValueTree) (st : RState) (e : Component),
    e ∈ st.pool → (∀ s ∈ children, getStateId s ≠ e.componentID) →
    e ∈ (children.foldl (stepChild types) st).pool := by
  intro children
  induction children with
  | nil => intro st e he _; exact he
  | cons s ss ih =>
    intro st e he hid
    rw [List.foldl_cons]
    refine ih (stepChild types st s) e ?_
      (fun x hx => hid x (List.mem_cons_of_mem s hx))
    unfold stepChild
    cases getHandlerForState types s with
    | none => exact he
    | some t =>
      cases hf : findComponentWithIDInPool st.pool (getStateId s) with
      | none => exact he
      | some p =>
        obtain ⟨c, rest⟩ := p
        exact findPool_mem_rest he
          (fun heq => hid s (List.mem_cons_self s ss) (heq ▸ rfl)) hf

/-- C6: a child state node whose identifier is not found in the pool of
existing children gets a brand-new component, created through the
handler matching its kind: the new component is appended to the
parent's child array (the handler contract parents it to `parent`), its
component ID is assigned from the child state node's `id` property, and
its object tag is the fresh one (so it is none of the existing
components); when no handler matches the child's kind, nothing is
created and the pass's debug-assertion flag is raised. -/
theorem claim6_new_component (types : List TypeHandler) (st : RState) (s : ValueTree)
    (hnf : findComponentWithIDInPool st.pool (getStateId s) = none) :
    (∀ t, getHandlerForState types s = some t →
      stepChild types st s
        = { st with arr := st.arr ++ [createNewComponent t s st.fresh],
                    inOrder := st.inOrder ++ [createNewComponent t s st.fresh],
                    created := st.created ++ [createNewComponent t s st.fresh],
                    fresh := st.fresh + 1 } ∧
      (createNewComponent t s st.fresh).componentID = getStateId s ∧
      (createNewComponent t s st.fresh).objId = st.fresh) ∧
    (getHandlerForState types s = none →
      stepChild types st s = st ∧
      ∀ (cs : List Component) (pre post : List ValueTree) (fresh : Nat),
        (updateChildComponents types cs (pre ++ s :: post) fresh).assertFailed
          = true) := by
  constructor
  · intro t ht
    refine ⟨?_, rfl, rfl⟩
    unfold stepChild
    rw [ht, hnf]
  · intro ht
    refine ⟨stepChild_skip ht, ?_⟩
    intro cs pre post fresh
    show ((pre ++ s :: post).any
      (fun x => (getHandlerForState types x).isNone)) = true
    rw [List.any_append]
    simp [ht]

/-- Closed witness for C6: one state child of a registered kind and an
empty pool; a fresh component with its id is created and parented. -/
theorem claim6_new_component_witness :
    stepChild [⟨"button"⟩] ⟨[], [], [], [], 7⟩ (.mk "button" [("id", "z")] [])
      = { pool := [],
          arr := [createNewComponent ⟨"button"⟩ (.mk "button" [("id", "z")] []) 7],
          inOrder := [createNewComponent ⟨"button"⟩ (.mk "button" [("id", "z")] []) 7],
          created := [createNewComponent ⟨"button"⟩ (.mk "button" [("id", "z")] []) 7],
          fresh := 8 } ∧
    (createNewComponent ⟨"button"⟩ (.mk "button" [("id", "z")] []) 7).componentID
      = getStateId (.mk "button" [("id", "z")] []) :=
  have h := (claim6_new_component [⟨"button"⟩] ⟨[], [], [], [], 7⟩
    (.mk "button" [("id", "z")] []) rfl).1 ⟨"button"⟩ rfl
  ⟨h.1, h.2.1⟩

/-- C10: during child-list reconciliation a child state node with no
registered handler is skipped entirely: every observable part of the
result (final child array, in-order list, created and disposed
components) is as if the child were absent from the state child list;
the debug-assertion flag is raised; and an existing child whose ID
matches the skipped child's identifier — and no other sibling's —
remains unclaimed and ends among the disposed components. -/
theorem claim10_missing_handler_skip (types : List TypeHandler) (cs : List Component)
    (pre post : List ValueTree) (s : ValueTree) (fresh : Nat)
    (hno : getHandlerForState types s = none) :
    ((updateChildComponents types cs (pre ++ s :: post) fresh).children
        = (updateChildComponents types cs (pre ++ post) fresh).children ∧
      (updateChildComponents types cs (pre ++ s :: post) fresh).inOrder
        = (updateChildComponents types cs (pre ++ post) fresh).inOrder ∧
      (updateChildComponents types cs (pre ++ s :: post) fresh).created
        = (updateChildComponents types cs (pre ++ post) fresh).created ∧
      (updateChildComponents types cs (pre ++ s :: post) fresh).disposed
        = (updateChildComponents types cs (pre ++ post) fresh).disposed) ∧
    (updateChildComponents types cs (pre ++ s :: post) fresh).assertFailed = true ∧
    (∀ e ∈ cs, e.componentID = getStateId s →
      (∀ x ∈ pre ++ post, getStateId x ≠ e.componentID) →
      e ∈ (updateChildComponents types cs (pre ++ s :: post) fresh).disposed) := by
  have hfold : (pre ++ s :: post).foldl (stepChild types) ⟨cs, cs, [], [], fresh⟩
      = (pre ++ post).foldl (stepChild types) ⟨cs, cs, [], [], fresh⟩ := by
    rw [List.foldl_append, List.foldl_append, List.foldl_cons, stepChild_skip hno]
  refine ⟨⟨?_, ?_, ?_, ?_⟩, ?_, ?_⟩
  · show zorderApply _ _ = zorderApply _ _
    rw [hfold]
  · show ((pre ++ s :: post).foldl (stepChild types) ⟨cs, cs, [], [], fresh⟩).inOrder
      = ((pre ++ post).foldl (stepChild types) ⟨cs, cs, [], [], fresh⟩).inOrder
    rw [hfold]
  · show ((pre ++ s :: post).foldl (stepChild types) ⟨cs, cs, [], [], fresh⟩).created
      = ((pre ++ post).foldl (stepChild types) ⟨cs, cs, [], [], fresh⟩).created
    rw [hfold]
  · show ((pre ++ s :: post).foldl (stepChild types) ⟨cs, cs, [], [], fresh⟩).pool
      = ((pre ++ post).foldl (stepChild types) ⟨cs, cs, [], [], fresh⟩).pool
    rw [hfold]
  · show ((pre ++ s :: post).any
      (fun x => (getHandlerForState types x).isNone)) = true
    rw [List.any_append]
    simp [hno]
  · intro e he hid hothers
    show e ∈ ((pre ++ s :: post).foldl (stepChild types) ⟨cs, cs, [], [], fresh⟩).pool
    rw [hfold]
    exact foldl_pool_retained (pre ++ post) ⟨cs, cs, [], [], fresh⟩ e he hothers

/-- Closed witness for C10: one state child of an unregistered kind
whose identifier matches the only existing child; the pass flags the
assertion and disposes that child. -/
theorem claim10_missing_handler_skip_witness :
    (updateChildComponents [⟨"button"⟩] [Component.mk 0 "gone" []]
        [ValueTree.mk "label" [("id", "gone")] []] 5).assertFailed = true ∧
    Component.mk 0 "gone" [] ∈ (updateChildComponents [⟨"button"⟩]
        [Component.mk 0 "gone" []] [ValueTree.mk "label" [("id", "gone")] []] 5).disposed :=
  have h := claim10_missing_handler_skip [⟨"button"⟩] [Component.mk 0 "gone" []] [] []
    (ValueTree.mk "label" [("id", "gone")] []) 5 rfl
  ⟨h.2.1, h.2.2 (Component.mk 0 "gone" []) (by simp) rfl (by simp)⟩

end JuceBuilder
